import Mathlib

/-!
Shallow embedding of the `AsyncQueue` class from `src/mod.ts` of the
peetklecha/async-queue repository, together with theorems checking the
natural-language specification against it.

The class owns three pieces of private state:
  - `#queue : Enqueueable<T>[]` — the buffer (values, promises, or the
    `END` / `ERROR` sentinel symbols);
  - `#resolve : null | Resolver<Enqueueable<T>>` — the single waiter slot,
    holding the resolver of the promise a suspended consumer awaits;
  - `#error?: Error` — the accumulated failure (absent, a single `Error`,
    or an `AggregateError` holding a member list).

We model JavaScript `Error` values as an inductive type distinguishing
plain errors (identified by their message) from `AggregateError`s (which
carry their member list), since `#handleError` branches on
`instanceof AggregateError`.  The waiter slot is modelled by a `Bool`
(occupied or not) plus the entry delivered to the waiter, returned as a
second component by every mutating operation.  Reassignment of the public
`push` / `close` fields to no-ops after `close` is modelled by a `closed`
flag checked at the top of both operations.
-/

/-- A JavaScript error value: either a plain `Error` (identified by its
message) or an `AggregateError` carrying its `errors` member list. -/
inductive JsError where
  | mk (msg : String)
  | aggregate (errors : List JsError)

mutual

/-- Structural equality test for `JsError`. -/
def JsError.decEq : (a b : JsError) → Decidable (a = b)
  | .mk a, .mk b =>
    if h : a = b then .isTrue (by rw [h])
    else .isFalse (fun hh => by cases hh; exact h rfl)
  | .mk _, .aggregate _ => .isFalse (fun hh => by cases hh)
  | .aggregate _, .mk _ => .isFalse (fun hh => by cases hh)
  | .aggregate es, .aggregate fs =>
    match JsError.decEqList es fs with
    | .isTrue h => .isTrue (by rw [h])
    | .isFalse h => .isFalse (fun hh => by cases hh; exact h rfl)

/-- Structural equality test for lists of `JsError`. -/
def JsError.decEqList : (es fs : List JsError) → Decidable (es = fs)
  | [], [] => .isTrue rfl
  | [], _ :: _ => .isFalse (fun hh => by cases hh)
  | _ :: _, [] => .isFalse (fun hh => by cases hh)
  | e :: es, f :: fs =>
    match JsError.decEq e f, JsError.decEqList es fs with
    | .isTrue h1, .isTrue h2 => .isTrue (by rw [h1, h2])
    | .isFalse h1, _ => .isFalse (fun hh => by cases hh; exact h1 rfl)
    | _, .isFalse h2 => .isFalse (fun hh => by cases hh; exact h2 rfl)

end

instance : DecidableEq JsError := JsError.decEq

/-- The error constructed by `push` when called with no arguments:
`new Error("AsyncQueueError: queue.push was called with no arguments")`. -/
def pushNoArgsError : JsError :=
  JsError.mk "AsyncQueueError: queue.push was called with no arguments"

/-- An element of the `#queue` buffer (`Enqueueable<T>`): a plain value, a
promise of a value (modelled by the value it resolves to), or one of the
two sentinel symbols `END` / `ERROR`. -/
inductive Entry (T : Type) where
  | value (v : T)
  | pending (v : T)
  | END
  | ERROR
  deriving DecidableEq

/-- An argument to `push`: `T | Promise<T>`. -/
inductive PushItem (T : Type) where
  | val (v : T)
  | promise (v : T)
  deriving DecidableEq

/-- How a push argument enters the buffer. -/
def toEntry {T : Type} : PushItem T → Entry T
  | .val v => .value v
  | .promise v => .pending v

/-- The `EndOptions` argument of `close`:
`{ immediately?: boolean, withError?: Error }`. -/
structure EndOptions where
  immediately : Bool := false
  withError : Option JsError := none
  deriving DecidableEq

/-- The private state of an `AsyncQueue<T>`: the buffer `#queue`, whether
the waiter slot `#resolve` is occupied, the accumulated failure `#error`,
and whether `close` has reassigned `push`/`close` to no-ops. -/
structure QState (T : Type) where
  queue : List (Entry T)
  resolve : Bool
  error : Option JsError
  closed : Bool
  deriving DecidableEq

/-- A freshly constructed queue: empty buffer, no waiter, no failure. -/
def initState (T : Type) : QState T := ⟨[], false, none, false⟩

/-- `#handleError(err)`: push onto an existing `AggregateError`'s member
list, combine a prior single failure with the new one into an
`AggregateError`, or record the first failure as-is. -/
def handleError (err : JsError) : Option JsError → JsError
  | some (JsError.aggregate es) => JsError.aggregate (es ++ [err])
  | some prior => JsError.aggregate [prior, err]
  | none => err

/-- `#enqueue(immediate, data)`: splice `data` at the head (`unshift`) or
tail (`push`) of the buffer; if a waiter is registered, shift the head of
the resulting buffer and deliver it to the waiter (the delivered entry is
returned as the second component), then clear the waiter slot.  The
`[]`-with-waiter case mirrors `shift()` returning `undefined`; it is
unreachable from the public operations, which always pass non-empty
`data`. -/
def enqueueOp {T : Type} (immediate : Bool) (data : List (Entry T)) (st : QState T) :
    QState T × Option (Entry T) :=
  let q := if immediate then data ++ st.queue else st.queue ++ data
  if st.resolve then
    match q with
    | [] => ({ st with queue := [], resolve := false }, none)
    | e :: rest => ({ st with queue := rest, resolve := false }, some e)
  else
    ({ st with queue := q }, none)

/-- `push(...data)`: a no-op once closed; with arguments, enqueue them at
the tail; with no arguments, enqueue an `ERROR` sentinel at the tail and
record the "no arguments" failure. -/
def push {T : Type} (data : List (PushItem T)) (st : QState T) :
    QState T × Option (Entry T) :=
  if st.closed then (st, none)
  else if data.isEmpty then
    let p := enqueueOp false [Entry.ERROR] st
    ({ p.1 with error := some (handleError pushNoArgsError p.1.error) }, p.2)
  else
    enqueueOp false (data.map toEntry) st

/-- `close(options)`: a no-op once closed; otherwise merge the optional
`withError` into the accumulated failure, enqueue `ERROR` if `withError`
was given and `END` otherwise (at the head when `immediately` is set),
and reassign `push`/`close` to no-ops. -/
def close {T : Type} (opts : EndOptions) (st : QState T) :
    QState T × Option (Entry T) :=
  if st.closed then (st, none)
  else
    let st1 := match opts.withError with
      | some e => { st with error := some (handleError e st.error) }
      | none => st
    let p := enqueueOp opts.immediately
      [if opts.withError.isSome then Entry.ERROR else Entry.END] st1
    ({ p.1 with closed := true }, p.2)

/-- Outcome of running the consumption loop over the current buffer until
it reaches a sentinel or empties the buffer: the values yielded so far and
whether iteration terminated normally (`done`), terminated by throwing
`#error` (`raised`, carrying the possibly-absent error), or would suspend
as the registered waiter (`waiting`). -/
inductive ConsumeResult (T : Type) where
  | done (yielded : List T)
  | raised (yielded : List T) (err : Option JsError)
  | waiting (yielded : List T)
  deriving DecidableEq

/-- Prepend a yielded value to a consumption outcome. -/
def ConsumeResult.prepend {T : Type} (v : T) : ConsumeResult T → ConsumeResult T
  | .done ys => .done (v :: ys)
  | .raised ys e => .raised (v :: ys) e
  | .waiting ys => .waiting (v :: ys)

/-- The body of `async *[Symbol.asyncIterator]()`, run to quiescence over a
buffer with a fixed accumulated failure: shift the head; throw `#error` on
`ERROR`; break on `END`; otherwise yield the value (an async generator's
`yield` awaits its operand, so a pending promise is yielded unwrapped);
suspend when the buffer is empty. -/
def consume {T : Type} : List (Entry T) → Option JsError → ConsumeResult T
  | [], _ => .waiting []
  | Entry.ERROR :: _, err => .raised [] err
  | Entry.END :: _, _ => .done []
  | Entry.value v :: rest, err => (consume rest err).prepend v
  | Entry.pending v :: rest, err => (consume rest err).prepend v

/-- What the loop does with a single entry handed to a resumed waiter
(the `await` of the consumer's promise adopts a delivered promise, so a
pending entry resumes with its resolved value). -/
inductive LoopStep (T : Type) where
  | yields (v : T)
  | stops
  | raises (err : Option JsError)
  deriving DecidableEq

/-- Classify the loop body's action on one entry, given the accumulated
failure at resumption time. -/
def stepOfEntry {T : Type} : Entry T → Option JsError → LoopStep T
  | .value v, _ => .yields v
  | .pending v, _ => .yields v
  | .END, _ => .stops
  | .ERROR, err => .raises err

/-- Fold a sequence of `push` calls over a state, discarding deliveries. -/
def pushAll {T : Type} (chunks : List (List (PushItem T))) (st : QState T) : QState T :=
  chunks.foldl (fun s c => (push c s).1) st

/-- Fold a sequence of `#handleError` calls over an accumulated failure. -/
def recordAll (errs : List JsError) (cur : Option JsError) : Option JsError :=
  errs.foldl (fun c e => some (handleError e c)) cur

/-- The constructor's producer-task wiring when the task rejects with `e`:
the attached `.catch` runs `close({ withError: e })`, then the attached
`.finally` runs `close()`. -/
def taskReject {T : Type} (e : JsError) (st : QState T) : QState T :=
  (close {} (close { withError := some e } st).1).1

/-- The constructor's producer-task wiring when the task fulfills: only the
attached `.finally` runs, calling `close()`. -/
def taskFulfill {T : Type} (st : QState T) : QState T :=
  (close {} st).1

/-! ### Basic lemmas about the operations -/

/-- A `push` of a non-empty argument list on an open queue with no waiter
appends the arguments at the buffer tail and changes nothing else. -/
theorem push_open {T : Type} (data : List (PushItem T)) (st : QState T)
    (hc : st.closed = false) (hw : st.resolve = false) (hd : data ≠ []) :
    push data st = ({ st with queue := st.queue ++ data.map toEntry }, none) := by
  cases data with
  | nil => exact absurd rfl hd
  | cons a as => simp [push, enqueueOp, hc, hw]

theorem pushAll_nil {T : Type} (st : QState T) : pushAll [] st = st := rfl

theorem pushAll_cons {T : Type} (c : List (PushItem T))
    (cs : List (List (PushItem T))) (st : QState T) :
    pushAll (c :: cs) st = pushAll cs (push c st).1 := rfl

/-- A sequence of non-empty `push` calls on an open queue with no waiter
appends all the arguments, in call order, at the buffer tail. -/
theorem pushAll_open {T : Type} (chunks : List (List (PushItem T))) (st : QState T)
    (hc : st.closed = false) (hw : st.resolve = false)
    (h : ∀ c ∈ chunks, c ≠ []) :
    pushAll chunks st =
      { st with queue := st.queue ++ (chunks.map (List.map toEntry)).flatten } := by
  induction chunks generalizing st with
  | nil => simp [pushAll_nil]
  | cons c cs ih =>
    rw [pushAll_cons, push_open c st hc hw (h c (by simp))]
    rw [ih _ (by simp [hc]) (by simp [hw]) (fun d hd => h d (by simp [hd]))]
    simp

/-- `close` on an open queue with no waiter: merge `withError` into the
accumulated failure, add the sentinel determined by `withError` at the head
(`immediately`) or tail, and mark the queue closed. -/
theorem close_open {T : Type} (opts : EndOptions) (st : QState T)
    (hc : st.closed = false) (hw : st.resolve = false) :
    close opts st =
      ({ st with
          queue := if opts.immediately
            then (if opts.withError.isSome then Entry.ERROR else Entry.END) :: st.queue
            else st.queue ++ [if opts.withError.isSome then Entry.ERROR else Entry.END],
          error := match opts.withError with
            | some e => some (handleError e st.error)
            | none => st.error,
          closed := true }, none) := by
  obtain ⟨imm, we⟩ := opts
  cases we <;> cases imm <;> simp [close, enqueueOp, hc, hw]

/-- Prepend a list of yielded values to a consumption outcome. -/
def ConsumeResult.prependAll {T : Type} (vs : List T) (r : ConsumeResult T) :
    ConsumeResult T :=
  vs.foldr ConsumeResult.prepend r

/-- Consuming a run of plain values followed by the rest of the buffer
yields those values in front of whatever the rest produces. -/
theorem consume_map_value_append {T : Type} (vs : List T) (q : List (Entry T))
    (err : Option JsError) :
    consume (vs.map Entry.value ++ q) err =
      ConsumeResult.prependAll vs (consume q err) := by
  induction vs with
  | nil => simp [ConsumeResult.prependAll]
  | cons v vs ih => simp [consume, ConsumeResult.prependAll] at ih ⊢; rw [ih]

theorem prependAll_done {T : Type} (vs ys : List T) :
    ConsumeResult.prependAll vs (ConsumeResult.done ys) =
      ConsumeResult.done (vs ++ ys) := by
  induction vs with
  | nil => rfl
  | cons v vs ih => simp [ConsumeResult.prependAll, ConsumeResult.prepend] at ih ⊢; rw [ih]

theorem prependAll_raised {T : Type} (vs ys : List T) (e : Option JsError) :
    ConsumeResult.prependAll vs (ConsumeResult.raised ys e) =
      ConsumeResult.raised (vs ++ ys) e := by
  induction vs with
  | nil => rfl
  | cons v vs ih => simp [ConsumeResult.prependAll, ConsumeResult.prepend] at ih ⊢; rw [ih]

/-! ### C1 -/

/-- C1: for every sequence of `push` calls with non-empty argument lists
carrying values `v1..vn`, followed by a graceful `close()` with no options,
one run of the consumption loop yields exactly `v1..vn` in enqueue order
and then terminates normally, raising no error. -/
theorem c1_fifo_order {T : Type} (vs : List (List T)) (h : ∀ c ∈ vs, c ≠ []) :
    consume ((close {} (pushAll (vs.map (List.map PushItem.val)) (initState T))).1).queue
        ((close {} (pushAll (vs.map (List.map PushItem.val)) (initState T))).1).error
      = ConsumeResult.done vs.flatten := by
  have hmap : ∀ c ∈ vs.map (List.map PushItem.val), c ≠ [] := by
    intro c hcmem
    simp only [List.mem_map] at hcmem
    obtain ⟨d, hd, rfl⟩ := hcmem
    simpa using h d hd
  rw [pushAll_open _ _ rfl rfl hmap, close_open _ _ rfl rfl]
  simp only [List.map_map]
  have hcomp : (List.map toEntry ∘ List.map PushItem.val) = List.map (Entry.value (T := T)) := by
    funext l
    simp [toEntry, Function.comp, List.map_map]
  rw [hcomp, ← List.map_flatten]
  simp only [initState, List.nil_append, Option.isSome_none, Bool.false_eq_true,
    if_false, List.append_assoc]
  rw [consume_map_value_append]
  simp [consume, prependAll_done]

/-- Witness for C1 at a concrete input. -/
theorem c1_fifo_order_witness :
    (∀ c ∈ [[1, 2], [3]], c ≠ ([] : List Nat)) ∧
    consume ((close {} (pushAll ([[1, 2], [3]].map (List.map PushItem.val)) (initState Nat))).1).queue
        ((close {} (pushAll ([[1, 2], [3]].map (List.map PushItem.val)) (initState Nat))).1).error
      = ConsumeResult.done [1, 2, 3] :=
  ⟨by decide, c1_fifo_order [[1, 2], [3]] (by decide)⟩

/-! ### C2 -/

/-- C2 counterexample: after a zero-argument `push` the accumulated failure
is non-absent, yet a subsequent `close()` with no failure argument appends
the `END` sentinel (the buffer becomes `[ERROR, END]`), not `ERROR` as the
claim states. -/
theorem c2_counterexample :
    ((push ([] : List (PushItem Nat)) (initState Nat)).1).error.isSome = true ∧
    (close {} ((push ([] : List (PushItem Nat)) (initState Nat)).1)).1.queue
      = [Entry.ERROR, Entry.END] := by
  constructor <;> rfl

/-- C2 (amended): the sentinel appended by the first `close` is determined
solely by whether the call's `withError` argument is present — `ERROR` when
it is, `END` otherwise — regardless of the previously accumulated failure
state; it goes at the head when `immediately` is set and at the tail
otherwise. -/
theorem c2_sentinel_from_argument {T : Type} (opts : EndOptions) (st : QState T)
    (hc : st.closed = false) (hw : st.resolve = false) :
    (close opts st).1.queue =
      (if opts.immediately
        then (if opts.withError.isSome then Entry.ERROR else Entry.END) :: st.queue
        else st.queue ++ [if opts.withError.isSome then Entry.ERROR else Entry.END]) := by
  rw [close_open opts st hc hw]

/-- Witness for the amended C2 at a concrete input. -/
theorem c2_sentinel_from_argument_witness :
    (initState Nat).closed = false ∧ (initState Nat).resolve = false ∧
    (close { withError := some (JsError.mk "E") } (initState Nat)).1.queue = [Entry.ERROR] :=
  ⟨rfl, rfl,
    c2_sentinel_from_argument { withError := some (JsError.mk "E") } (initState Nat) rfl rfl⟩

/-! ### C3 -/

/-- C3: pushing values and then closing with the `immediately` option and
no failure puts the `END` sentinel at the front of the buffer, so
consumption yields zero values and terminates normally, never reaching the
pushed values. -/
theorem c3_immediate_close {T : Type} (vs : List (List T)) (h : ∀ c ∈ vs, c ≠ []) :
    ((close { immediately := true } (pushAll (vs.map (List.map PushItem.val)) (initState T))).1).queue
      = Entry.END :: vs.flatten.map Entry.value ∧
    consume ((close { immediately := true } (pushAll (vs.map (List.map PushItem.val)) (initState T))).1).queue
        ((close { immediately := true } (pushAll (vs.map (List.map PushItem.val)) (initState T))).1).error
      = ConsumeResult.done [] := by
  have hmap : ∀ c ∈ vs.map (List.map PushItem.val), c ≠ [] := by
    intro c hcmem
    simp only [List.mem_map] at hcmem
    obtain ⟨d, hd, rfl⟩ := hcmem
    simpa using h d hd
  rw [pushAll_open _ _ rfl rfl hmap, close_open _ _ rfl rfl]
  have hcomp : (List.map toEntry ∘ List.map PushItem.val) = List.map (Entry.value (T := T)) := by
    funext l
    simp [toEntry, Function.comp, List.map_map]
  constructor
  · simp only [List.map_map, hcomp, ← List.map_flatten]
    simp [initState]
  · simp [consume]

/-- Witness for C3 at a concrete input. -/
theorem c3_immediate_close_witness :
    (∀ c ∈ [[1], [2]], c ≠ ([] : List Nat)) ∧
    (((close { immediately := true } (pushAll ([[1], [2]].map (List.map PushItem.val)) (initState Nat))).1).queue
      = Entry.END :: [1, 2].map Entry.value ∧
    consume ((close { immediately := true } (pushAll ([[1], [2]].map (List.map PushItem.val)) (initState Nat))).1).queue
        ((close { immediately := true } (pushAll ([[1], [2]].map (List.map PushItem.val)) (initState Nat))).1).error
      = ConsumeResult.done []) :=
  ⟨by decide, c3_immediate_close [[1], [2]] (by decide)⟩

/-! ### C4 -/

/-- Whether a JavaScript error value is an `AggregateError`
(`instanceof AggregateError` in `#handleError`). -/
def JsError.isAgg : JsError → Bool
  | .aggregate _ => true
  | _ => false

theorem recordAll_nil (cur : Option JsError) : recordAll [] cur = cur := rfl

theorem recordAll_cons (e : JsError) (es : List JsError) (cur : Option JsError) :
    recordAll (e :: es) cur = recordAll es (some (handleError e cur)) := rfl

/-- Once the accumulated failure is an `AggregateError`, every further
recorded failure is appended to its member list. -/
theorem recordAll_aggregate (es acc : List JsError) :
    recordAll es (some (JsError.aggregate acc)) =
      some (JsError.aggregate (acc ++ es)) := by
  induction es generalizing acc with
  | nil => simp [recordAll_nil]
  | cons e es ih => rw [recordAll_cons, handleError, ih, List.append_assoc]; rfl

/-- C4 counterexample: when the first recorded failure is itself an
`AggregateError`, the second failure is pushed into its member list instead
of forming a compound whose members are the two reported failures, so the
accumulated state is not the compound `[e1, e2]` the claim requires. -/
theorem c4_counterexample :
    recordAll [JsError.aggregate [JsError.mk "a"], JsError.mk "b"] none
      = some (JsError.aggregate [JsError.mk "a", JsError.mk "b"]) ∧
    recordAll [JsError.aggregate [JsError.mk "a"], JsError.mk "b"] none
      ≠ some (JsError.aggregate [JsError.aggregate [JsError.mk "a"], JsError.mk "b"]) := by
  refine ⟨rfl, ?_⟩
  intro h
  rw [recordAll_cons, recordAll_cons, recordAll_nil] at h
  simp only [handleError] at h
  simp at h

/-- C4 (amended): for failures `e1..en` (n ≥ 1) recorded into an absent
failure state, the result is `e1` itself when n = 1 and, provided `e1` is
not itself an `AggregateError`, a single compound failure whose member list
is exactly `[e1, ..., en]` in report order for n ≥ 2; when `e1` is an
`AggregateError`, subsequent failures are appended into `e1`'s own member
list instead. -/
theorem c4_error_aggregation (e1 : JsError) (rest : List JsError)
    (h : e1.isAgg = false) :
    recordAll (e1 :: rest) none =
      some (if rest.isEmpty then e1 else JsError.aggregate (e1 :: rest)) := by
  rw [recordAll_cons]
  cases rest with
  | nil => simp [recordAll_nil, handleError]
  | cons e2 rest2 =>
    cases e1 with
    | aggregate es => simp [JsError.isAgg] at h
    | mk msg =>
      rw [recordAll_cons]
      simp only [handleError]
      rw [recordAll_aggregate]
      rfl

/-- Witness for C4 at a concrete input. -/
theorem c4_error_aggregation_witness :
    (JsError.mk "x").isAgg = false ∧
    recordAll [JsError.mk "x", JsError.mk "y", JsError.mk "z"] none
      = some (JsError.aggregate [JsError.mk "x", JsError.mk "y", JsError.mk "z"]) :=
  ⟨rfl, c4_error_aggregation (JsError.mk "x") [JsError.mk "y", JsError.mk "z"] rfl⟩

/-! ### C5 -/

/-- C5: a zero-argument `push` on an open queue records the
no-arguments failure into the accumulated failure state and appends an
`ERROR` sentinel at the buffer tail, but does not close the queue: a
subsequent `push` still appends its value and a subsequent `close` still
appends its sentinel and closes. -/
theorem c5_empty_push {T : Type} (st : QState T) (v : T)
    (hc : st.closed = false) (hw : st.resolve = false) :
    (push [] st).1.queue = st.queue ++ [Entry.ERROR] ∧
    (push [] st).1.error = some (handleError pushNoArgsError st.error) ∧
    (push [] st).1.closed = false ∧
    (push [PushItem.val v] (push [] st).1).1.queue
      = st.queue ++ [Entry.ERROR, Entry.value v] ∧
    (close {} (push [] st).1).1.queue = st.queue ++ [Entry.ERROR, Entry.END] ∧
    (close {} (push [] st).1).1.closed = true := by
  have hp : push ([] : List (PushItem T)) st =
      ({ st with
          queue := st.queue ++ [Entry.ERROR],
          error := some (handleError pushNoArgsError st.error) }, none) := by
    simp [push, enqueueOp, hc, hw]
  rw [hp]
  refine ⟨rfl, rfl, by simp [hc], ?_, ?_, ?_⟩
  · rw [push_open _ _ (by simp [hc]) (by simp [hw]) (by simp)]
    simp [toEntry]
  · rw [close_open _ _ (by simp [hc]) (by simp [hw])]
    simp
  · rw [close_open _ _ (by simp [hc]) (by simp [hw])]

/-- Witness for C5 at a concrete input. -/
theorem c5_empty_push_witness :
    (initState Nat).closed = false ∧ (initState Nat).resolve = false ∧
    ((push [] (initState Nat)).1.queue = [] ++ [Entry.ERROR] ∧
     (push [] (initState Nat)).1.error = some (handleError pushNoArgsError none) ∧
     (push [] (initState Nat)).1.closed = false ∧
     (push [PushItem.val 7] (push [] (initState Nat)).1).1.queue
       = [] ++ [Entry.ERROR, Entry.value 7] ∧
     (close {} (push [] (initState Nat)).1).1.queue = [] ++ [Entry.ERROR, Entry.END] ∧
     (close {} (push [] (initState Nat)).1).1.closed = true) :=
  ⟨rfl, rfl, c5_empty_push (initState Nat) 7 rfl rfl⟩

/-! ### C6 -/

/-- C6: close is idempotent — after a `close` call, any subsequent `push`
or `close` (with any options) leaves the whole queue state, buffer, waiter
slot, accumulated failure and closed flag alike, unchanged. -/
theorem c6_close_idempotent {T : Type} (st : QState T)
    (opts opts2 : EndOptions) (data : List (PushItem T)) :
    (push data (close opts st).1).1 = (close opts st).1 ∧
    (close opts2 (close opts st).1).1 = (close opts st).1 := by
  have hgen : ∀ s : QState T, s.closed = true →
      (push data s).1 = s ∧ (close opts2 s).1 = s := by
    intro s hs
    exact ⟨by simp [push, hs], by simp [close, hs]⟩
  apply hgen
  by_cases h : st.closed
  · simp [close, h]
  · cases hwe : opts.withError <;> simp [close, enqueueOp, h, hwe]

/-! ### C7 -/

/-- When a waiter is registered, `#enqueue` delivers the head of the buffer
as it stands after insertion, removes it, clears the waiter slot, and
touches neither the failure state nor the closed flag. -/
theorem enqueueOp_waiter {T : Type} (imm : Bool) (data : List (Entry T))
    (st : QState T) (hw : st.resolve = true) :
    (enqueueOp imm data st).2 =
        (if imm then data ++ st.queue else st.queue ++ data).head? ∧
    (enqueueOp imm data st).1.queue =
        (if imm then data ++ st.queue else st.queue ++ data).tail ∧
    (enqueueOp imm data st).1.resolve = false ∧
    (enqueueOp imm data st).1.error = st.error ∧
    (enqueueOp imm data st).1.closed = st.closed := by
  cases hq : (if imm then data ++ st.queue else st.queue ++ data) with
  | nil => simp [enqueueOp, hw, hq]
  | cons a rest => simp [enqueueOp, hw, hq]

/-- A `push` of a non-empty argument list on an open queue with a
registered waiter: deliver the head of the buffer after insertion, keep its
tail, clear the waiter slot. -/
theorem push_waiter {T : Type} (data : List (PushItem T)) (st : QState T)
    (hw : st.resolve = true) (hc : st.closed = false) (hd : data ≠ []) :
    push data st =
      ({ st with
          queue := (st.queue ++ data.map toEntry).tail,
          resolve := false },
        (st.queue ++ data.map toEntry).head?) := by
  cases data with
  | nil => exact absurd rfl hd
  | cons a as =>
    cases hq : st.queue ++ (a :: as).map toEntry with
    | nil => simp at hq
    | cons x r =>
      simp only [List.map_cons] at hq
      simp [push, enqueueOp, hc, hw, hq]

/-- A `close` on an open queue with a registered waiter: merge the optional
failure, deliver the head of the buffer after the sentinel insertion, keep
its tail, clear the waiter slot, mark the queue closed. -/
theorem close_waiter {T : Type} (opts : EndOptions) (st : QState T)
    (hw : st.resolve = true) (hc : st.closed = false) :
    close opts st =
      ({ st with
          queue := (if opts.immediately
            then (if opts.withError.isSome then Entry.ERROR else Entry.END) :: st.queue
            else st.queue ++ [if opts.withError.isSome then Entry.ERROR else Entry.END]).tail,
          resolve := false,
          error := match opts.withError with
            | some e => some (handleError e st.error)
            | none => st.error,
          closed := true },
        (if opts.immediately
          then (if opts.withError.isSome then Entry.ERROR else Entry.END) :: st.queue
          else st.queue ++ [if opts.withError.isSome then Entry.ERROR else Entry.END]).head?) := by
  obtain ⟨imm, we⟩ := opts
  cases we with
  | none =>
    cases imm with
    | true => simp [close, enqueueOp, hc, hw]
    | false =>
      cases hq : st.queue ++ [Entry.END] with
      | nil => simp at hq
      | cons x r => simp [close, enqueueOp, hc, hw, hq]
  | some e =>
    cases imm with
    | true => simp [close, enqueueOp, hc, hw]
    | false =>
      cases hq : st.queue ++ [Entry.ERROR] with
      | nil => simp at hq
      | cons x r => simp [close, enqueueOp, hc, hw, hq]

/-- C7: whenever a waiter is registered on an open queue, a `push` of
values (non-empty argument list) or a `close` (any options) hands the
waiter exactly the head entry of the buffer as it stands after the
insertion, removes that entry from the buffer, and clears the waiter slot,
so the suspended loop resumes on exactly that entry with no duplicate or
lost delivery. -/
theorem c7_live_handoff {T : Type} (st : QState T) (data : List (PushItem T))
    (opts : EndOptions) (hw : st.resolve = true) (hc : st.closed = false)
    (hd : data ≠ []) :
    ((push data st).2 = (st.queue ++ data.map toEntry).head? ∧
     (push data st).1.queue = (st.queue ++ data.map toEntry).tail ∧
     (push data st).1.resolve = false) ∧
    ((close opts st).2 =
        (if opts.immediately
          then (if opts.withError.isSome then Entry.ERROR else Entry.END) :: st.queue
          else st.queue ++ [if opts.withError.isSome then Entry.ERROR else Entry.END]).head? ∧
     (close opts st).1.queue =
        (if opts.immediately
          then (if opts.withError.isSome then Entry.ERROR else Entry.END) :: st.queue
          else st.queue ++ [if opts.withError.isSome then Entry.ERROR else Entry.END]).tail ∧
     (close opts st).1.resolve = false) := by
  rw [push_waiter data st hw hc hd, close_waiter opts st hw hc]
  exact ⟨⟨rfl, rfl, rfl⟩, ⟨rfl, rfl, rfl⟩⟩

/-- Witness for C7 at a concrete input: a waiter suspended on an empty
buffer receives the single pushed value directly. -/
theorem c7_live_handoff_witness :
    ({ initState Nat with resolve := true } : QState Nat).resolve = true ∧
    ({ initState Nat with resolve := true } : QState Nat).closed = false ∧
    [PushItem.val 5] ≠ [] ∧
    ((push [PushItem.val 5] { initState Nat with resolve := true }).2
        = some (Entry.value 5) ∧
     (push [PushItem.val 5] { initState Nat with resolve := true }).1.queue = [] ∧
     (push [PushItem.val 5] { initState Nat with resolve := true }).1.resolve = false) :=
  ⟨rfl, rfl, by simp,
    (c7_live_handoff { initState Nat with resolve := true } [PushItem.val 5] {}
      rfl rfl (by simp)).1⟩

/-! ### C8 -/

/-- C8: pushing an already-resolved promise of `v` makes consumption yield
the unwrapped value `v` itself, on both delivery paths: taken from the
buffer after a graceful close (first conjunct), or handed directly to a
suspended waiter, whose resumed loop iteration yields `v` because the
consumer's `await` adopts the delivered promise (remaining conjuncts). -/
theorem c8_promise_transparency {T : Type} (v : T) :
    consume ((close {} (push [PushItem.promise v] (initState T)).1).1).queue
        ((close {} (push [PushItem.promise v] (initState T)).1).1).error
      = ConsumeResult.done [v] ∧
    (push [PushItem.promise v] { initState T with resolve := true }).2
      = some (Entry.pending v) ∧
    stepOfEntry (Entry.pending v)
        ((push [PushItem.promise v] { initState T with resolve := true }).1).error
      = LoopStep.yields v :=
  ⟨rfl, rfl, rfl⟩

/-! ### C9 -/

/-- `close` on an already-closed queue changes nothing and delivers
nothing. -/
theorem close_closed {T : Type} (opts : EndOptions) (st : QState T)
    (h : st.closed = true) : close opts st = (st, none) := by
  simp [close, h]

/-- C9: for a queue bound to a producer task, holding values pushed through
non-empty `push` calls: if the task rejects with `e`, the attached handlers
run `close({ withError: e })` and then `close()`; the second close is a
no-op on the already-closed queue, and consumption drains the pushed
values and then raises `e`.  If the task fulfills, only `close()` runs and
consumption drains the values and terminates normally. -/
theorem c9_producer_task {T : Type} (vs : List (List T)) (e : JsError)
    (base : QState T) (h : ∀ c ∈ vs, c ≠ [])
    (hbase : base = pushAll (vs.map (List.map PushItem.val)) (initState T)) :
    taskReject e base = (close { withError := some e } base).1 ∧
    consume (taskReject e base).queue (taskReject e base).error
      = ConsumeResult.raised vs.flatten (some e) ∧
    consume (taskFulfill base).queue (taskFulfill base).error
      = ConsumeResult.done vs.flatten := by
  have hmap : ∀ c ∈ vs.map (List.map PushItem.val), c ≠ [] := by
    intro c hcmem
    simp only [List.mem_map] at hcmem
    obtain ⟨d, hd, rfl⟩ := hcmem
    simpa using h d hd
  have hcomp : (List.map toEntry ∘ List.map PushItem.val) = List.map (Entry.value (T := T)) := by
    funext l
    simp [toEntry, Function.comp, List.map_map]
  have hbase' : base =
      { initState T with queue := vs.flatten.map Entry.value } := by
    rw [hbase, pushAll_open _ _ rfl rfl hmap]
    simp only [List.map_map, hcomp, ← List.map_flatten]
    simp [initState]
  subst hbase'
  have hclosed1 : (close { withError := some e } { initState T with queue := vs.flatten.map Entry.value }).1
      = { initState T with
            queue := vs.flatten.map Entry.value ++ [Entry.ERROR],
            error := some e,
            closed := true } := by
    rw [close_open _ _ rfl rfl]
    simp [handleError, initState]
  refine ⟨?_, ?_, ?_⟩
  · rw [taskReject, hclosed1, close_closed _ _ rfl]
  · rw [taskReject, hclosed1, close_closed _ _ rfl]
    simp only [consume_map_value_append, consume, prependAll_raised]
    simp
  · rw [taskFulfill, close_open _ _ rfl rfl]
    simp only [initState, Option.isSome_none, Bool.false_eq_true, if_false]
    rw [consume_map_value_append]
    simp [consume, prependAll_done]

/-- Witness for C9 at a concrete input. -/
theorem c9_producer_task_witness :
    (∀ c ∈ [[4]], c ≠ ([] : List Nat)) ∧
    (pushAll ([[4]].map (List.map PushItem.val)) (initState Nat)
        = pushAll ([[4]].map (List.map PushItem.val)) (initState Nat)) ∧
    (taskReject (JsError.mk "E") (pushAll ([[4]].map (List.map PushItem.val)) (initState Nat))
        = (close { withError := some (JsError.mk "E") }
            (pushAll ([[4]].map (List.map PushItem.val)) (initState Nat))).1 ∧
     consume (taskReject (JsError.mk "E") (pushAll ([[4]].map (List.map PushItem.val)) (initState Nat))).queue
         (taskReject (JsError.mk "E") (pushAll ([[4]].map (List.map PushItem.val)) (initState Nat))).error
       = ConsumeResult.raised [4] (some (JsError.mk "E")) ∧
     consume (taskFulfill (pushAll ([[4]].map (List.map PushItem.val)) (initState Nat))).queue
         (taskFulfill (pushAll ([[4]].map (List.map PushItem.val)) (initState Nat))).error
       = ConsumeResult.done [4]) :=
  ⟨by decide, rfl,
    c9_producer_task [[4]] (JsError.mk "E") _ (by decide) rfl⟩

/-! ### C10 -/

/-- One atomic interaction with the queue: a producer-side `push` or
`close`, the consumer registering itself as the waiter on an empty buffer,
or the consumer shifting the head entry off a non-empty buffer (the first
step of each loop iteration, which also removes a reached sentinel). -/
inductive QStep {T : Type} : QState T → QState T → Prop where
  | pushStep (data : List (PushItem T)) (st : QState T) :
      QStep st (push data st).1
  | closeStep (opts : EndOptions) (st : QState T) :
      QStep st (close opts st).1
  | waitStep (st : QState T) : st.queue = [] →
      QStep st { st with resolve := true }
  | shiftStep (st : QState T) (e : Entry T) (rest : List (Entry T)) :
      st.queue = e :: rest → QStep st { st with queue := rest }

/-- States reachable from a fresh queue through the public operations. -/
inductive Reachable {T : Type} : QState T → Prop where
  | init : Reachable (initState T)
  | step {st st' : QState T} : Reachable st → QStep st st' → Reachable st'

theorem enqueueOp_error_eq {T : Type} (imm : Bool) (data : List (Entry T))
    (st : QState T) : (enqueueOp imm data st).1.error = st.error := by
  cases hw : st.resolve
  · simp [enqueueOp, hw]
  · cases hq : (if imm then data ++ st.queue else st.queue ++ data) with
    | nil => simp [enqueueOp, hw, hq]
    | cons a r => simp [enqueueOp, hw, hq]

/-- Every entry in the buffer after an `#enqueue` was already buffered or
belongs to the inserted data. -/
theorem enqueueOp_mem {T : Type} (imm : Bool) (data : List (Entry T))
    (st : QState T) (a : Entry T)
    (ha : a ∈ (enqueueOp imm data st).1.queue) : a ∈ st.queue ∨ a ∈ data := by
  cases hw : st.resolve
  · simp only [enqueueOp, hw, Bool.false_eq_true, if_false] at ha
    cases imm <;> simp at ha <;> tauto
  · cases hq : (if imm then data ++ st.queue else st.queue ++ data) with
    | nil => simp [enqueueOp, hw, hq] at ha
    | cons x r =>
      simp [enqueueOp, hw, hq] at ha
      have hmem : a ∈ (if imm then data ++ st.queue else st.queue ++ data) := by
        rw [hq]
        exact List.mem_cons_of_mem x ha
      cases imm <;> simp at hmem <;> tauto

theorem toEntry_ne_marker {T : Type} (p : PushItem T) :
    toEntry p ≠ Entry.ERROR := by
  cases p <;> simp [toEntry]

theorem push_nonempty_eq {T : Type} (data : List (PushItem T)) (st : QState T)
    (hc : st.closed = false) (hd : data.isEmpty = false) :
    (push data st).1 = (enqueueOp false (data.map toEntry) st).1 := by
  simp [push, hc, hd]

theorem close_error_none {T : Type} (opts : EndOptions) (st : QState T)
    (hc : st.closed = false) (hwe : opts.withError = none) :
    (close opts st).1.queue = (enqueueOp opts.immediately [Entry.END] st).1.queue ∧
    (close opts st).1.error = st.error := by
  constructor <;> simp [close, hc, hwe, enqueueOp_error_eq]

/-- One step preserves the invariant "an `ERROR` sentinel in the buffer
implies a non-absent accumulated failure". -/
theorem qStep_preserves {T : Type} {st st' : QState T} (hs : QStep st st')
    (hinv : Entry.ERROR ∈ st.queue → st.error.isSome = true) :
    Entry.ERROR ∈ st'.queue → st'.error.isSome = true := by
  cases hs with
  | pushStep data st =>
    by_cases hc : st.closed
    · simpa [push, hc] using hinv
    · rw [Bool.not_eq_true] at hc
      cases hd : data.isEmpty
      · intro hmem
        rw [push_nonempty_eq data st hc hd] at hmem ⊢
        rw [enqueueOp_error_eq]
        rcases enqueueOp_mem _ _ _ _ hmem with h | h
        · exact hinv h
        · exfalso
          rcases List.mem_map.mp h with ⟨p, _, hp⟩
          exact toEntry_ne_marker p hp
      · intro _
        simp [push, hc, hd]
  | closeStep opts st =>
    by_cases hc : st.closed
    · simpa [close, hc] using hinv
    · rw [Bool.not_eq_true] at hc
      cases hwe : opts.withError with
      | some e =>
        intro _
        simp [close, hc, hwe, enqueueOp_error_eq]
      | none =>
        intro hmem
        rw [(close_error_none opts st hc hwe).1] at hmem
        rw [(close_error_none opts st hc hwe).2]
        rcases enqueueOp_mem _ _ _ _ hmem with h | h
        · exact hinv h
        · simp at h
  | waitStep st hq =>
    intro hmem
    exact hinv (by simpa using hmem)
  | shiftStep st e rest hq =>
    intro hmem
    refine hinv ?_
    rw [hq]
    exact List.mem_cons_of_mem e (by simpa using hmem)

/-- A consumption run that ends by raising carries exactly the accumulated
failure it was given, and only happens when an `ERROR` sentinel is in the
buffer. -/
theorem consume_raised {T : Type} (q : List (Entry T)) (err : Option JsError)
    (ys : List T) (e : Option JsError)
    (h : consume q err = ConsumeResult.raised ys e) :
    e = err ∧ Entry.ERROR ∈ q := by
  induction q generalizing ys e with
  | nil => simp [consume] at h
  | cons a rest ih =>
    cases a with
    | ERROR =>
      simp [consume] at h
      exact ⟨h.2.symm, by simp⟩
    | END => simp [consume] at h
    | value v =>
      simp only [consume] at h
      cases hr : consume rest err with
      | done l => rw [hr] at h; simp [ConsumeResult.prepend] at h
      | waiting l => rw [hr] at h; simp [ConsumeResult.prepend] at h
      | raised l e' =>
        rw [hr] at h
        simp only [ConsumeResult.prepend, ConsumeResult.raised.injEq] at h
        rcases ih l e' hr with ⟨he, hmem⟩
        exact ⟨h.2 ▸ he, List.mem_cons_of_mem _ hmem⟩
    | pending v =>
      simp only [consume] at h
      cases hr : consume rest err with
      | done l => rw [hr] at h; simp [ConsumeResult.prepend] at h
      | waiting l => rw [hr] at h; simp [ConsumeResult.prepend] at h
      | raised l e' =>
        rw [hr] at h
        simp only [ConsumeResult.prepend, ConsumeResult.raised.injEq] at h
        rcases ih l e' hr with ⟨he, hmem⟩
        exact ⟨h.2 ▸ he, List.mem_cons_of_mem _ hmem⟩

/-- C10: in every state reachable through the public operations (any
interleaving of push, close, waiter registration and consumption shifts),
an `ERROR` sentinel in the buffer implies the accumulated failure state is
non-absent; consequently whenever a consumption run of such a state ends by
raising, the raised failure is never the absent value. -/
theorem c10_error_marker_invariant {T : Type} (st : QState T)
    (h : Reachable st) :
    (Entry.ERROR ∈ st.queue → st.error.isSome = true) ∧
    (∀ ys e, consume st.queue st.error = ConsumeResult.raised ys e →
      e.isSome = true) := by
  have key : Entry.ERROR ∈ st.queue → st.error.isSome = true := by
    induction h with
    | init => intro hmem; simp [initState] at hmem
    | step hr hstep ih => exact qStep_preserves hstep ih
  refine ⟨key, ?_⟩
  intro ys e hcons
  rcases consume_raised _ _ _ _ hcons with ⟨rfl, hmem⟩
  exact key hmem

/-- Witness for C10 at a concrete reachable state: after a zero-argument
`push` on a fresh queue the buffer holds an `ERROR` sentinel, the failure
state is non-absent, and consumption raises that non-absent failure. -/
theorem c10_error_marker_invariant_witness :
    Reachable ((push ([] : List (PushItem Nat)) (initState Nat)).1) ∧
    (Entry.ERROR ∈ (push ([] : List (PushItem Nat)) (initState Nat)).1.queue →
      (push ([] : List (PushItem Nat)) (initState Nat)).1.error.isSome = true) ∧
    (∀ ys e,
      consume (push ([] : List (PushItem Nat)) (initState Nat)).1.queue
          (push ([] : List (PushItem Nat)) (initState Nat)).1.error
        = ConsumeResult.raised ys e → e.isSome = true) :=
  have hreach : Reachable ((push ([] : List (PushItem Nat)) (initState Nat)).1) :=
    Reachable.step Reachable.init (QStep.pushStep [] (initState Nat))
  ⟨hreach, (c10_error_marker_invariant _ hreach).1, (c10_error_marker_invariant _ hreach).2⟩
